import Mathlib

/-!
Shallow embedding of the dfConverters repository (src/src/DfConverters.ts),
class tfConverters: conversions between DataFrames (dflib), tensors
(@tensorflow/tfjs) and raster images, together with theorems checking the
natural-language specification against the code.

Modelling conventions:
* JavaScript numbers flowing through the converters are rationals; the two
  non-numeric values the code can produce, NaN and undefined, are explicit
  constructors of JVal.
* A JavaScript object literal used as a row record is an association list with
  JS semantics: property assignment overwrites in place (keeping key order) or
  appends, property read of a missing key yields undefined.
* tf.Tensor is its shape plus its flat row-major buffer. tf.tensor coerces
  undefined entries to NaN when materialising the buffer (ToNumber semantics),
  which toTensor below reproduces via JVal.toFloat.
-/

namespace DfConverters

/-- A JavaScript value appearing in the converters: a (rational) number,
NaN, or undefined. -/
inductive JVal where
  | num (q : ℚ)
  | nan
  | undef
deriving DecidableEq, Repr

namespace JVal

/-- ToNumber coercion applied by the tensor library when it materialises a
flat numeric buffer: undefined becomes NaN, numbers and NaN are unchanged. -/
def toFloat : JVal → JVal
  | undef => nan
  | nan => nan
  | num q => num q

/-- JavaScript multiplication as used in the pixel loops: a number times a
number is their product, any operand that is NaN or undefined gives NaN. -/
def jmul : JVal → JVal → JVal
  | num x, num y => num (x * y)
  | _, _ => nan

end JVal

/-- A JavaScript row object: an association list of field names to values,
in property-creation order. -/
abbrev JObj := List (String × JVal)

/-- JavaScript property assignment obj[k] = v on a row object: overwrite the
existing entry in place if the key is present, otherwise append the entry. -/
def setField : JObj → String → JVal → JObj
  | [], k, v => [(k, v)]
  | (k', v') :: rest, k, v =>
      if k' = k then (k, v) :: rest else (k', v') :: setField rest k v

/-- JavaScript property read obj[k] on a row object: the value of the first
entry with the key, undefined if the key is missing. -/
def getField : JObj → String → JVal
  | [], _ => .undef
  | (k', v) :: rest, k => if k' = k then v else getField rest k

/-- The DataFrame interface consumed by the converters (dflib is external):
toJSON serialises to the array of row objects, columnNames enumerates the
column names in the frame's own order, count is the row count. -/
structure DataFrame where
  rows : List JObj
  cols : List String
deriving DecidableEq, Repr

/-- tf.Tensor as consumed by the converters: a shape and the flat row-major
buffer tensor.data() exposes. -/
structure Tensor where
  shape : List ℕ
  data : List JVal
deriving DecidableEq, Repr

/-- tf.tensor(flattenedValues, shape): build a tensor from a flat JS array and
a shape, coercing each entry to a number (undefined becomes NaN). -/
def tfTensor (flat : List JVal) (shape : List ℕ) : Tensor :=
  { shape := shape, data := flat.map JVal.toFloat }

/-- tfConverters.toTensor: map each row to the row's values under the frame's
own column names, flatten row-major, and build a tensor of shape
[dataFrame.count(), dataFrame.columnNames().length]. -/
def toTensor (dataFrame : DataFrame) : Tensor :=
  let values := dataFrame.rows.map (fun row => dataFrame.cols.map (fun col => getField row col))
  tfTensor values.flatten [dataFrame.rows.length, dataFrame.cols.length]

/-- tensor.arraySync() on a rank-2 tensor of shape [n, m]: the flat buffer cut
into n consecutive rows of m entries (tf guarantees the buffer holds exactly
n * m entries, so the take/drop never run short on a well-formed tensor). -/
def arraySync2d : ℕ → ℕ → List JVal → List (List JVal)
  | 0, _, _ => []
  | n + 1, m, l => l.take m :: arraySync2d n m (l.drop m)

/-- The row-object construction inside fromTensor: (columns || []).forEach
assigning row[col] = rowValues[index] for each column with its index; an index
beyond the row's length reads undefined. -/
def buildRow (columns : List String) (rowValues : List JVal) : JObj :=
  columns.enum.foldl (fun row p => setField row p.2 (rowValues.getD p.1 JVal.undef)) []

/-- tfConverters.fromTensor: throw unless the shape has rank exactly 2, then
rebuild one row object per first-axis index from the supplied column list, and
resolve with new DataFrame(data, columns) — modelled as the pair of the row
objects and the column list handed to the dflib constructor. -/
def fromTensor (tensor : Tensor) (columns : Option (List String)) :
    Except String (List JObj × Option (List String)) :=
  match tensor.shape with
  | [n, m] =>
      let values := arraySync2d n m tensor.data
      let data := values.map (fun rowValues => buildRow (columns.getD []) rowValues)
      .ok (data, columns)
  | _ => .error "Only 2D tensors can be converted to a DataFrame"

/-- Uint8ClampedArray element conversion (ToUint8Clamp): NaN and undefined
become 0, otherwise clamp to [0, 255] and round to the nearest integer,
halves to the nearest even integer. -/
def clampByte : JVal → ℕ
  | .undef => 0
  | .nan => 0
  | .num q =>
      if q ≤ 0 then 0
      else if 255 ≤ q then 255
      else
        let f := (⌊q⌋).toNat
        let frac := q - ⌊q⌋
        if frac < 1 / 2 then f
        else if 1 / 2 < frac then f + 1
        else if f % 2 = 0 then f else f + 1

/-- The RGBA expansion loop of toImageBlob: for i stepping by 3 over the pixel
buffer, push pixelData[i] * 255, pixelData[i+1] * 255, pixelData[i+2] * 255 and
the fixed alpha 255. A trailing fragment shorter than 3 cannot occur: the shape
check forces the buffer length to be H * W * 3. -/
def expandTriples : List JVal → List JVal
  | r :: g :: b :: rest =>
      JVal.jmul r (.num 255) :: JVal.jmul g (.num 255) :: JVal.jmul b (.num 255) ::
        JVal.num 255 :: expandTriples rest
  | _ => []

/-- The byte-producing core of tfConverters.toImageBlob: validate the shape
(rank 3 with channel axis 3), expand the flat buffer to RGBA with each colour
channel multiplied by 255 and alpha 255, then build the Uint8ClampedArray from
expandedArray.map(v => v * 255) — the second multiplication by 255 the source
performs — clamping each entry to a byte. -/
def toImageBlobBytes (tensor : Tensor) : Except String (List ℕ) :=
  if tensor.shape.length ≠ 3 ∨ tensor.shape.getD 2 0 ≠ 3 then
    .error "Tensor must have shape [height, width, 3] for RGB image"
  else
    .ok (((expandTriples tensor.data).map (fun v => JVal.jmul v (.num 255))).map clampByte)

/-- The effect of the canvas.toBlob callback in toImageBlob on the enclosing
promise: resolve(blob) when the encoder delivered a blob, otherwise an
exception thrown from inside the callback. -/
inductive EncodeCallbackEffect where
  | resolvesBlob
  | uncaught (msg : String)
deriving DecidableEq, Repr

/-- The settlement state of a promise as observed by the caller. -/
inductive PromiseState where
  | fulfilled
  | rejectedWith (msg : String)
  | pending
deriving DecidableEq, Repr

/-- The canvas.toBlob callback of toImageBlob, as written: if the encoder
reports no output (blob is null) it throws an Error; otherwise it resolves the
promise with the blob. -/
def toImageBlobEncodeCallback (blobDelivered : Bool) : EncodeCallbackEffect :=
  if blobDelivered then .resolvesBlob else .uncaught "Conversion to Blob failed"

/-- The settlement of the promise returned by toImageBlob as a function of the
encoder outcome. Host semantics: the executor binds only resolve, and an
exception thrown inside the asynchronously invoked toBlob callback propagates
to the event loop, not to the promise machinery, so it settles nothing — the
promise stays pending forever. -/
def toImageBlobSettlement (blobDelivered : Bool) : PromiseState :=
  match toImageBlobEncodeCallback blobDelivered with
  | .resolvesBlob => .fulfilled
  | .uncaught _ => .pending

/-- The pixel loop of fromImageBlob: for i stepping by 4 over the RGBA buffer
read back from the canvas, emit the red, green and blue bytes each divided by
255, discarding the alpha byte. A trailing fragment shorter than 4 cannot
occur: getImageData always delivers width * height * 4 bytes. -/
def rgbaToRgb : List ℕ → List ℚ
  | r :: g :: b :: _a :: rest => (r : ℚ) / 255 :: (g : ℚ) / 255 :: (b : ℚ) / 255 :: rgbaToRgb rest
  | _ => []

/-- tf.tensor3d(values, shape): build the tensor when the flat values fit the
shape, otherwise fail (tf throws a size-mismatch error, which fromImageBlob
catches and turns into a rejection; the exact message text is the library's). -/
def tfTensor3d (values : List ℚ) (shape : List ℕ) : Except String Tensor :=
  if values.length = shape.prod then
    .ok { shape := shape, data := values.map JVal.num }
  else
    .error "tensor3d values do not match the requested shape"

/-- The host events one call of fromImageBlob can observe: decode either fires
onload with the image's natural width and height and the RGBA buffer that
reading back the drawn surface yields, or fires onerror with an event text; and
the off-screen canvas either provides a 2d context or returns null. -/
structure ImgEnv where
  decode : Option (ℕ × ℕ × List ℕ)
  errText : String
  ctxOk : Bool

/-- The outcome of one call of fromImageBlob. -/
inductive ImgOutcome where
  | resolved (t : Tensor)
  | rejected (msg : String)
deriving DecidableEq, Repr

/-- tfConverters.fromImageBlob, path by path, paired with the number of
URL.revokeObjectURL calls made on that path. On onerror the handler rejects
without revoking; on onload with no context it rejects, revokes and returns;
on onload with a context it draws, revokes, reads the pixels back, normalises
them and resolves with tf.tensor3d(data, [height, width, 3]), rejecting if the
tensor constructor throws. -/
def fromImageBlobRun (env : ImgEnv) : ImgOutcome × ℕ :=
  match env.decode with
  | none => (.rejected ("Image failed to load: " ++ env.errText), 0)
  | some (w, h, rgba) =>
      if env.ctxOk then
        let data := rgbaToRgb rgba
        match tfTensor3d data [h, w, 3] with
        | .ok t => (.resolved t, 1)
        | .error e => (.rejected e, 1)
      else
        (.rejected "Unable to get canvas context", 1)

/-! Helper lemmas about the row-object and buffer operations. -/

theorem JVal.toFloat_of_ne_undef {v : JVal} (h : v ≠ .undef) : v.toFloat = v := by
  cases v <;> simp_all [JVal.toFloat]

theorem setField_of_forall_ne (o : JObj) (k : String) (v : JVal)
    (h : ∀ p ∈ o, p.1 ≠ k) : setField o k v = o ++ [(k, v)] := by
  induction o with
  | nil => rfl
  | cons p rest ih =>
      obtain ⟨k', v'⟩ := p
      have hk : k' ≠ k := h (k', v') (by simp)
      simp only [setField, if_neg hk, List.cons_append, List.cons.injEq, true_and]
      exact ih fun q hq => h q (by simp [hq])

theorem buildRow_go (vals : List JVal) :
    ∀ (cols : List String) (s : ℕ) (acc : JObj), cols.Nodup →
      (∀ c ∈ cols, ∀ p ∈ acc, p.1 ≠ c) →
      (List.enumFrom s cols).foldl
          (fun row p => setField row p.2 (vals.getD p.1 JVal.undef)) acc
        = acc ++ (List.enumFrom s cols).map (fun p => (p.2, vals.getD p.1 JVal.undef)) := by
  intro cols
  induction cols with
  | nil => intro s acc _ _; simp
  | cons c cs ih =>
      intro s acc hnd hdisj
      rw [List.enumFrom_cons]
      simp only [List.foldl_cons, List.map_cons]
      rw [setField_of_forall_ne acc c _ (fun p hp => hdisj c (by simp) p hp)]
      rw [ih (s + 1) (acc ++ [(c, vals.getD s JVal.undef)]) (List.nodup_cons.mp hnd).2]
      · simp
      · intro c' hc' p hp
        rcases List.mem_append.mp hp with hp | hp
        · exact hdisj c' (by simp [hc']) p hp
        · simp only [List.mem_singleton] at hp
          subst hp
          intro hcc
          have hcc' : c = c' := hcc
          exact (List.nodup_cons.mp hnd).1 (by rw [hcc']; exact hc')

theorem buildRow_eq_map (cols : List String) (vals : List JVal) (hnd : cols.Nodup) :
    buildRow cols vals = cols.enum.map (fun p => (p.2, vals.getD p.1 JVal.undef)) := by
  have := buildRow_go vals cols 0 [] hnd (by simp)
  simpa [buildRow, List.enum_eq_enumFrom] using this

theorem getField_enumFrom_map (f : ℕ → JVal) :
    ∀ (cols : List String) (j : ℕ) (hj : j < cols.length) (s : ℕ), cols.Nodup →
      getField ((List.enumFrom s cols).map (fun p => (p.2, f p.1))) (cols.get ⟨j, hj⟩)
        = f (s + j) := by
  intro cols
  induction cols with
  | nil => intro j hj; simp at hj
  | cons c cs ih =>
      intro j hj s hnd
      rw [List.enumFrom_cons]
      cases j with
      | zero => simp [getField]
      | succ j =>
          have hj' : j < cs.length := by simpa using hj
          have hget : (c :: cs).get ⟨j + 1, hj⟩ = cs.get ⟨j, hj'⟩ := rfl
          have hne : c ≠ cs.get ⟨j, hj'⟩ := by
            intro hcc
            exact (List.nodup_cons.mp hnd).1 (by rw [hcc]; exact List.get_mem cs j hj')
          simp only [List.map_cons, hget, getField, if_neg hne]
          rw [ih j hj' (s + 1) (List.nodup_cons.mp hnd).2]
          congr 1
          omega

theorem getField_buildRow (cols : List String) (vals : List JVal) (j : ℕ)
    (hj : j < cols.length) (hnd : cols.Nodup) :
    getField (buildRow cols vals) (cols.get ⟨j, hj⟩) = vals.getD j JVal.undef := by
  rw [buildRow_eq_map cols vals hnd, List.enum_eq_enumFrom]
  simpa using getField_enumFrom_map (fun i => vals.getD i JVal.undef) cols j hj 0 hnd

theorem buildRow_fields (cols : List String) (vals : List JVal) (hnd : cols.Nodup) :
    (buildRow cols vals).map Prod.fst = cols := by
  rw [buildRow_eq_map cols vals hnd, List.map_map]
  have : (Prod.fst ∘ fun p : ℕ × String => (p.2, vals.getD p.1 JVal.undef))
      = Prod.snd := rfl
  rw [this, List.enum_map_snd]

theorem arraySync2d_length (m : ℕ) (l : List JVal) :
    ∀ n, (arraySync2d n m l).length = n := by
  intro n
  induction n generalizing l with
  | zero => rfl
  | succ n ih => simp [arraySync2d, ih]

theorem arraySync2d_flatten (m : ℕ) :
    ∀ (rows : List (List JVal)), (∀ r ∈ rows, r.length = m) →
      arraySync2d rows.length m rows.flatten = rows := by
  intro rows
  induction rows with
  | nil => intro _; rfl
  | cons r rs ih =>
      intro hlen
      have hr : r.length = m := hlen r (by simp)
      have h1 : List.take m (r ++ rs.flatten) = r := by
        rw [← hr]; exact List.take_left r rs.flatten
      have h2 : List.drop m (r ++ rs.flatten) = rs.flatten := by
        rw [← hr]; exact List.drop_left r rs.flatten
      simp only [List.length_cons, List.flatten_cons, arraySync2d, h1, h2]
      rw [ih fun x hx => hlen x (by simp [hx])]

theorem arraySync2d_row_length_le (m : ℕ) (l : List JVal) :
    ∀ n, ∀ r ∈ arraySync2d n m l, r.length ≤ m := by
  intro n
  induction n generalizing l with
  | zero => intro r hr; simp [arraySync2d] at hr
  | succ n ih =>
      intro r hr
      simp only [arraySync2d, List.mem_cons] at hr
      rcases hr with hr | hr
      · subst hr
        simp [List.length_take]
      · exact ih (l.drop m) r hr

theorem flatten_getD (m : ℕ) (d : JVal) :
    ∀ (rows : List (List JVal)) (i j : ℕ) (hi : i < rows.length),
      (∀ r ∈ rows, r.length = m) → j < m →
      rows.flatten.getD (i * m + j) d = (rows.get ⟨i, hi⟩).getD j d := by
  intro rows
  induction rows with
  | nil => intro i j hi; simp at hi
  | cons r rs ih =>
      intro i j hi hlen hj
      have hr : r.length = m := hlen r (by simp)
      cases i with
      | zero =>
          simp only [List.flatten_cons, Nat.zero_mul, Nat.zero_add]
          rw [List.getD_append _ _ _ j (by omega)]
          rfl
      | succ i =>
          have hidx : (i + 1) * m + j = r.length + (i * m + j) := by rw [hr]; ring
          simp only [List.flatten_cons, hidx]
          rw [List.getD_append_right _ _ _ _ (by omega)]
          have hsub : r.length + (i * m + j) - r.length = i * m + j := by omega
          rw [hsub]
          exact ih i j (by simpa using hi) (fun x hx => hlen x (by simp [hx])) hj

theorem rgbaToRgb_length :
    ∀ (k : ℕ) (l : List ℕ), l.length = 4 * k → (rgbaToRgb l).length = 3 * k := by
  intro k
  induction k with
  | zero =>
      intro l hl
      have hnil : l = [] := List.length_eq_zero.mp (by omega)
      subst hnil
      rfl
  | succ k ih =>
      intro l hl
      rcases l with _ | ⟨a, _ | ⟨b, _ | ⟨b', _ | ⟨e, rest⟩⟩⟩⟩ <;>
        first
        | (simp only [List.length_nil, List.length_cons] at hl; omega)
        | skip
      simp only [rgbaToRgb, List.length_cons]
      rw [ih rest (by simp only [List.length_cons] at hl; omega)]
      omega

theorem rgbaToRgb_getD :
    ∀ (k : ℕ) (l : List ℕ) (p c : ℕ), l.length = 4 * k → p < k → c < 3 →
      (rgbaToRgb l).getD (3 * p + c) 0 = ((l.getD (4 * p + c) 0 : ℕ) : ℚ) / 255 := by
  intro k
  induction k with
  | zero => intro l p c _ hp; omega
  | succ k ih =>
      intro l p c hl hp hc
      rcases l with _ | ⟨a, _ | ⟨b, _ | ⟨b', _ | ⟨e, rest⟩⟩⟩⟩ <;>
        first
        | (simp only [List.length_nil, List.length_cons] at hl; omega)
        | skip
      cases p with
      | zero => interval_cases c <;> simp [rgbaToRgb]
      | succ p =>
          have h3 : 3 * (p + 1) + c = 3 * p + c + 1 + 1 + 1 := by ring
          have h4 : 4 * (p + 1) + c = 4 * p + c + 1 + 1 + 1 + 1 := by ring
          rw [h3, h4]
          simp only [rgbaToRgb, List.getD_cons_succ]
          exact ih rest p c (by simp at hl; omega) (by omega) hc

/-! Theorems settling the claims. -/

/-- C1: on a one-pixel image with every channel 0.5, the byte-producing core of
toImageBlob writes 255 for each colour channel: the code multiplies by 255 both
in the RGBA expansion loop and again when building the clamped byte buffer, so
the byte for channel value 0.5 is clamp(0.5 * 255 * 255) = 255 and not the
single denormalization round(clamp(0.5, 0, 1) * 255) = 128 the claim states. -/
theorem toImageBlobBytes_half_gray_pixel :
    toImageBlobBytes ⟨[1, 1, 3], [.num (1 / 2), .num (1 / 2), .num (1 / 2)]⟩
      = .ok [255, 255, 255, 255] ∧ (255 : ℕ) ≠ 128 := by
  exact ⟨by norm_num [toImageBlobBytes, expandTriples, clampByte, JVal.jmul], by decide⟩

/-- C5: fromTensor fails with the validation error message Only 2D tensors can
be converted to a DataFrame exactly when the input array's rank is not 2, and
for every rank-2 input it does not raise this error. -/
theorem fromTensor_error_iff_rank_ne_two (t : Tensor) (cols : Option (List String)) :
    fromTensor t cols = .error "Only 2D tensors can be converted to a DataFrame"
      ↔ t.shape.length ≠ 2 := by
  obtain ⟨shape, d⟩ := t
  rcases shape with _ | ⟨a, _ | ⟨b, _ | ⟨c, rest⟩⟩⟩ <;> simp [fromTensor]

/-- C6: toImageBlob raises its validation error exactly when the input shape
does not have rank 3 with channel axis 3; the check is the first step, so for
every valid shape the pixel pipeline runs and succeeds. -/
theorem toImageBlobBytes_error_iff (t : Tensor) :
    toImageBlobBytes t = .error "Tensor must have shape [height, width, 3] for RGB image"
      ↔ (t.shape.length ≠ 3 ∨ t.shape.getD 2 0 ≠ 3) := by
  unfold toImageBlobBytes
  by_cases h : t.shape.length ≠ 3 ∨ t.shape.getD 2 0 ≠ 3
  · rw [if_pos h]
    simpa using h
  · rw [if_neg h]
    simpa using h

/-- C7: when the encoder reports no output, the toBlob callback of toImageBlob
throws an uncaught error with the message Conversion to Blob failed instead of
rejecting the promise, so the deferred result stays pending and is never
rejected with any message. -/
theorem toImageBlob_encode_null_uncaught :
    toImageBlobEncodeCallback false = .uncaught "Conversion to Blob failed"
      ∧ toImageBlobSettlement false = .pending
      ∧ ∀ msg, toImageBlobSettlement false ≠ .rejectedWith msg :=
  ⟨rfl, rfl, fun _ h => PromiseState.noConfusion h⟩

/-- C8: fromImageBlob revokes the temporary object URL zero times on the image
decode error path, once on the successful path and once on the
context-acquisition failure path, so the URL is not released exactly once on
every exit path. -/
theorem fromImageBlob_revoke_count_paths :
    (fromImageBlobRun ⟨none, "decode failed", true⟩).2 = 0
      ∧ (fromImageBlobRun ⟨some (1, 1, [0, 0, 0, 255]), "", true⟩).2 = 1
      ∧ (fromImageBlobRun ⟨some (1, 1, [0, 0, 0, 255]), "", false⟩).2 = 1 :=
  ⟨rfl, rfl, rfl⟩

/-- C9: for a rank-2 input, fromTensor produces one row object per first-axis
index; with a supplied column list shorter than the second axis every output
row carries exactly the supplied names, dropping the excess numeric columns,
and with the column list omitted every output row has no fields. -/
theorem fromTensor_columns_shorter (n m : ℕ) (d : List JVal) (cols : List String)
    (hnd : cols.Nodup) (hle : cols.length ≤ m) :
    ∃ rows : List JObj, fromTensor ⟨[n, m], d⟩ (some cols) = .ok (rows, some cols)
      ∧ rows.length = n
      ∧ (∀ r ∈ rows, r.map Prod.fst = cols)
      ∧ ∃ rows0 : List JObj, fromTensor ⟨[n, m], d⟩ none = .ok (rows0, none)
          ∧ rows0.length = n ∧ ∀ r ∈ rows0, r = [] := by
  refine ⟨(arraySync2d n m d).map (buildRow cols), rfl,
    by simp [arraySync2d_length], ?_, ?_⟩
  · intro r hr
    obtain ⟨vals, hvals, hbuilt⟩ := List.mem_map.mp hr
    rw [← hbuilt]
    exact buildRow_fields cols vals hnd
  · refine ⟨(arraySync2d n m d).map (buildRow []), rfl,
      by simp [arraySync2d_length], ?_⟩
    intro r hr
    obtain ⟨vals, hvals, hbuilt⟩ := List.mem_map.mp hr
    rw [← hbuilt]
    rfl

/-- C9 witness: a 1 by 2 tensor with the single column name a yields one row
holding only the field a, and with no columns one empty row. -/
theorem fromTensor_columns_shorter_witness :
    ∃ rows : List JObj,
      fromTensor ⟨[1, 2], [.num 1, .num 2]⟩ (some ["a"]) = .ok (rows, some ["a"])
      ∧ rows.length = 1
      ∧ (∀ r ∈ rows, r.map Prod.fst = ["a"])
      ∧ ∃ rows0 : List JObj, fromTensor ⟨[1, 2], [.num 1, .num 2]⟩ none = .ok (rows0, none)
          ∧ rows0.length = 1 ∧ ∀ r ∈ rows0, r = [] :=
  fromTensor_columns_shorter 1 2 [.num 1, .num 2] ["a"] (by decide) (by decide)

/-- C10: for a rank-2 input with a column list longer than the second axis,
fromTensor still succeeds; every output row carries all supplied names as
fields, and each excess name holds the undefined value read from the
out-of-range row index. -/
theorem fromTensor_columns_longer (n m : ℕ) (d : List JVal) (cols : List String) (j : ℕ)
    (hnd : cols.Nodup) (hm : m ≤ j) (hj : j < cols.length) (hd : d.length = n * m) :
    ∃ rows : List JObj, fromTensor ⟨[n, m], d⟩ (some cols) = .ok (rows, some cols)
      ∧ rows.length = n
      ∧ ∀ r ∈ rows, r.map Prod.fst = cols
          ∧ getField r (cols.get ⟨j, hj⟩) = JVal.undef := by
  refine ⟨(arraySync2d n m d).map (buildRow cols), rfl,
    by simp [arraySync2d_length], ?_⟩
  intro r hr
  obtain ⟨vals, hvals, hbuilt⟩ := List.mem_map.mp hr
  have hvlen : vals.length ≤ m := arraySync2d_row_length_le m d n vals hvals
  refine ⟨by rw [← hbuilt]; exact buildRow_fields cols vals hnd, ?_⟩
  rw [← hbuilt, getField_buildRow cols vals j hj hnd]
  exact List.getD_eq_default vals JVal.undef (by omega)

/-- C10 witness: a 1 by 1 tensor with two column names a and b yields a row
with both fields, the excess field b holding undefined. -/
theorem fromTensor_columns_longer_witness :
    ∃ rows : List JObj,
      fromTensor ⟨[1, 1], [.num 7]⟩ (some ["a", "b"]) = .ok (rows, some ["a", "b"])
      ∧ rows.length = 1
      ∧ ∀ r ∈ rows, r.map Prod.fst = ["a", "b"]
          ∧ getField r (["a", "b"].get ⟨1, by decide⟩) = JVal.undef :=
  fromTensor_columns_longer 1 1 [.num 7] ["a", "b"] 1 (by decide) (by decide) (by decide) (by decide)

theorem toTensor_data (df : DataFrame) :
    (toTensor df).data
      = (df.rows.map (fun row => df.cols.map (fun c => (getField row c).toFloat))).flatten := by
  simp [toTensor, tfTensor, List.map_flatten, List.map_map, Function.comp_def]

theorem arraySync2d_toTensor (df : DataFrame) :
    arraySync2d df.rows.length df.cols.length (toTensor df).data
      = df.rows.map (fun row => df.cols.map (fun c => (getField row c).toFloat)) := by
  rw [toTensor_data]
  have hlen : ∀ r ∈ df.rows.map (fun row => df.cols.map (fun c => (getField row c).toFloat)),
      r.length = df.cols.length := by
    intro r hr
    obtain ⟨row, _, hb⟩ := List.mem_map.mp hr
    rw [← hb]
    simp
  have := arraySync2d_flatten df.cols.length
    (df.rows.map (fun row => df.cols.map (fun c => (getField row c).toFloat))) hlen
  simpa using this

/-- C2: converting a DataFrame to a tensor and back with the same column list
reproduces the frame's rows: the row count is preserved and each row's value
under each column name is unchanged. Hypotheses: the column names are unique
and every row defines every column. -/
theorem fromTensor_toTensor_roundtrip (df : DataFrame) (hnd : df.cols.Nodup)
    (hdef : ∀ r ∈ df.rows, ∀ c ∈ df.cols, getField r c ≠ JVal.undef) :
    ∃ rows : List JObj, fromTensor (toTensor df) (some df.cols) = .ok (rows, some df.cols)
      ∧ rows.length = df.rows.length
      ∧ ∀ (i : ℕ) (hi : i < df.rows.length), ∀ c ∈ df.cols,
          getField (rows.getD i []) c = getField (df.rows.get ⟨i, hi⟩) c := by
  refine ⟨(df.rows.map (fun row => df.cols.map (fun c => (getField row c).toFloat))).map
      (buildRow df.cols), ?_, by simp, ?_⟩
  · have hstep : fromTensor (toTensor df) (some df.cols)
        = .ok ((arraySync2d df.rows.length df.cols.length (toTensor df).data).map
            (buildRow df.cols), some df.cols) := rfl
    rw [hstep, arraySync2d_toTensor]
  · intro i hi c hc
    obtain ⟨⟨j, hj⟩, hcj⟩ := List.get_of_mem hc
    have hrow : ((df.rows.map
          (fun row => df.cols.map (fun c => (getField row c).toFloat))).map
            (buildRow df.cols)).getD i []
        = buildRow df.cols
            (df.cols.map (fun c => (getField (df.rows.get ⟨i, hi⟩) c).toFloat)) := by
      rw [List.getD_eq_getElem _ _ (by simpa using hi)]
      simp [List.getElem_map]
    rw [hrow, ← hcj, getField_buildRow df.cols _ j hj hnd,
      List.getD_eq_getElem _ _ (by simpa using hj), List.getElem_map]
    have hmem : df.rows.get ⟨i, hi⟩ ∈ df.rows := List.get_mem df.rows i hi
    have hcmem : df.cols.get ⟨j, hj⟩ ∈ df.cols := by rw [hcj]; exact hc
    exact JVal.toFloat_of_ne_undef (hdef _ hmem _ hcmem)

/-- C2 witness: the two-row frame with columns a and b and values 1, 2, 3, 4
round-trips through toTensor and fromTensor with its content intact. -/
theorem fromTensor_toTensor_roundtrip_witness :
    ∃ rows : List JObj,
      fromTensor
          (toTensor ⟨[[("a", .num 1), ("b", .num 2)], [("a", .num 3), ("b", .num 4)]],
            ["a", "b"]⟩)
          (some ["a", "b"])
        = .ok (rows, some ["a", "b"])
      ∧ rows.length = 2
      ∧ ∀ (i : ℕ) (hi : i < ([[("a", JVal.num 1), ("b", JVal.num 2)],
            [("a", JVal.num 3), ("b", JVal.num 4)]] : List JObj).length), ∀ c ∈ ["a", "b"],
          getField (rows.getD i []) c
            = getField (([[("a", JVal.num 1), ("b", JVal.num 2)],
                [("a", JVal.num 3), ("b", JVal.num 4)]] : List JObj).get ⟨i, hi⟩) c :=
  fromTensor_toTensor_roundtrip
    ⟨[[("a", .num 1), ("b", .num 2)], [("a", .num 3), ("b", .num 4)]], ["a", "b"]⟩
    (by decide) (by decide)

/-- C3: toTensor yields shape [N, M] for N rows and M columns, element [i, j]
of the flat row-major buffer is the value of row i under the j-th column name
(whenever the row defines that column), and the two-row example with columns a
and b and values 1, 2, 3, 4 yields shape [2, 2] with buffer 1, 2, 3, 4. -/
theorem toTensor_shape_entries (df : DataFrame) :
    (toTensor df).shape = [df.rows.length, df.cols.length]
      ∧ (∀ (i j : ℕ) (hi : i < df.rows.length) (hj : j < df.cols.length),
          getField (df.rows.get ⟨i, hi⟩) (df.cols.get ⟨j, hj⟩) ≠ JVal.undef →
          (toTensor df).data.getD (i * df.cols.length + j) JVal.undef
            = getField (df.rows.get ⟨i, hi⟩) (df.cols.get ⟨j, hj⟩))
      ∧ toTensor ⟨[[("a", .num 1), ("b", .num 2)], [("a", .num 3), ("b", .num 4)]],
            ["a", "b"]⟩
          = ⟨[2, 2], [.num 1, .num 2, .num 3, .num 4]⟩ := by
  refine ⟨rfl, ?_, rfl⟩
  intro i j hi hj hval
  rw [toTensor_data]
  have hlen : ∀ r ∈ df.rows.map (fun row => df.cols.map (fun c => (getField row c).toFloat)),
      r.length = df.cols.length := by
    intro r hr
    obtain ⟨row, _, hb⟩ := List.mem_map.mp hr
    rw [← hb]
    simp
  rw [flatten_getD df.cols.length JVal.undef _ i j (by simpa using hi) hlen hj]
  have hrow : (df.rows.map
        (fun row => df.cols.map (fun c => (getField row c).toFloat))).get
          ⟨i, by simpa using hi⟩
      = df.cols.map (fun c => (getField (df.rows.get ⟨i, hi⟩) c).toFloat) := by
    simp
  rw [hrow, List.getD_eq_getElem _ _ (by simpa using hj), List.getElem_map]
  exact JVal.toFloat_of_ne_undef hval

/-- C3 witness: in the two-row example the buffer entry at position
1 * 2 + 0 is the value of row 1 under column a. -/
theorem toTensor_shape_entries_witness :
    (toTensor ⟨[[("a", JVal.num 1), ("b", JVal.num 2)],
        [("a", JVal.num 3), ("b", JVal.num 4)]], ["a", "b"]⟩).data.getD (1 * 2 + 0) JVal.undef
      = getField ([[("a", JVal.num 1), ("b", JVal.num 2)],
          [("a", JVal.num 3), ("b", JVal.num 4)]].get ⟨1, by decide⟩) (["a", "b"].get ⟨0, by decide⟩) :=
  (toTensor_shape_entries ⟨[[("a", JVal.num 1), ("b", JVal.num 2)],
      [("a", JVal.num 3), ("b", JVal.num 4)]], ["a", "b"]⟩).2.1 1 0 (by decide) (by decide)
    (by decide)

theorem getD_map_num (l : List ℚ) (n : ℕ) (hn : n < l.length) :
    (l.map JVal.num).getD n JVal.undef = JVal.num (l.getD n 0) := by
  rw [List.getD_eq_getElem _ _ (by simpa using hn), List.getElem_map,
    List.getD_eq_getElem _ _ hn]

/-- C4: on a successful decode of an image with natural width W and height H
whose drawn surface reads back an RGBA buffer of H * W * 4 bytes, fromImageBlob
resolves with a tensor of shape [H, W, 3] whose buffer, in the source pixel
order, holds each pixel's red, green and blue bytes divided by 255, the alpha
byte discarded. -/
theorem fromImageBlob_normalizes (w h : ℕ) (rgba : List ℕ) (e : String)
    (hlen : rgba.length = h * w * 4) :
    ∃ t : Tensor, fromImageBlobRun ⟨some (w, h, rgba), e, true⟩ = (.resolved t, 1)
      ∧ t.shape = [h, w, 3]
      ∧ t.data.length = h * w * 3
      ∧ ∀ (p c : ℕ), p < h * w → c < 3 →
          t.data.getD (3 * p + c) JVal.undef
            = JVal.num (((rgba.getD (4 * p + c) 0 : ℕ) : ℚ) / 255) := by
  have hlen4 : rgba.length = 4 * (h * w) := by omega
  have hrgb : (rgbaToRgb rgba).length = 3 * (h * w) := rgbaToRgb_length (h * w) rgba hlen4
  have hok : tfTensor3d (rgbaToRgb rgba) [h, w, 3]
      = .ok ⟨[h, w, 3], (rgbaToRgb rgba).map JVal.num⟩ := by
    unfold tfTensor3d
    rw [if_pos (by simp [hrgb]; ring)]
  refine ⟨⟨[h, w, 3], (rgbaToRgb rgba).map JVal.num⟩, ?_, rfl, by simp [hrgb]; ring, ?_⟩
  · simp only [fromImageBlobRun, if_true]
    rw [hok]
  · intro p c hp hc
    have hidx : 3 * p + c < (rgbaToRgb rgba).length := by omega
    rw [getD_map_num _ _ hidx, rgbaToRgb_getD (h * w) rgba p c hlen4 hp hc]

/-- C4 witness: a 1 by 1 image whose read-back buffer is the RGBA quadruple
255, 0, 10, 255 resolves to a [1, 1, 3] tensor of the three colour bytes each
divided by 255. -/
theorem fromImageBlob_normalizes_witness :
    ∃ t : Tensor, fromImageBlobRun ⟨some (1, 1, [255, 0, 10, 255]), "", true⟩
        = (.resolved t, 1)
      ∧ t.shape = [1, 1, 3]
      ∧ t.data.length = 1 * 1 * 3
      ∧ ∀ (p c : ℕ), p < 1 * 1 → c < 3 →
          t.data.getD (3 * p + c) JVal.undef
            = JVal.num ((([255, 0, 10, 255].getD (4 * p + c) 0 : ℕ) : ℚ) / 255) :=
  fromImageBlob_normalizes 1 1 [255, 0, 10, 255] "" (by decide)

end DfConverters
